import Mathlib

/-!
Verification of the Bobcat ISBN-matching script
(`src/notebooks/bobcat-isbn-match.ipynb`).

Strings are modelled as `List Char`.  The notebook's own functions
(`pad_isbn`, `validate_isbn`, `check_bobcat_isbn`, the batch loop and the
CSV export) are embedded directly from the source.  The external
dependency `isbnlib` (functions `clean`, `is_isbn10`, `is_isbn13`) is not
part of the repository, so it is modelled from the specification: the
checksum is computed over the cleaned digit/character sequence, with
hyphens and spaces ignored, using the standard check-digit algorithms.
The external browser fetch is modelled as an explicit function argument
`fetch : List Char → List Char` from URL to rendered page text, and each
call of it is recorded so that fetch counts can be stated.
-/

namespace Bobcat

/-- ASCII uppercase of one character, modelling Python's `str.upper`
on the ASCII range that ISBN strings live in. -/
def upperChar (c : Char) : Char :=
  if 97 ≤ c.toNat ∧ c.toNat ≤ 122 then Char.ofNat (c.toNat - 32) else c

/-- `true` on the decimal digit characters. -/
def isDigitChar (c : Char) : Bool :=
  decide (48 ≤ c.toNat ∧ c.toNat ≤ 57)

/-- Numeric value of a digit character. -/
def digitVal (c : Char) : Nat := c.toNat - 48

/-- Modelled from the spec: the cleaning step of the external `isbnlib`
dependency; checksums (and the cleaned length used by `pad_isbn`) are
computed over the digit/character sequence with hyphens and spaces
ignored. -/
def clean (s : List Char) : List Char :=
  s.filter (fun c => !(c == '-') && !(c == ' '))

/-- Characters allowed in the last position of an ISBN-10: a digit or
the roman numeral `X` (either case) standing for the value ten. -/
def isIsbn10Char (c : Char) : Bool :=
  isDigitChar c || c == 'X' || c == 'x'

/-- Value of an ISBN-10 character: `X`/`x` is ten, a digit is itself. -/
def isbn10CharVal (c : Char) : Nat :=
  if c == 'X' || c == 'x' then 10 else digitVal c

/-- Weighted sum of a list of values against a list of weights. -/
def weightedSum (ws : List Nat) (vals : List Nat) : Nat :=
  (List.zipWith (· * ·) ws vals).sum

/-- Modelled from the spec: `isbnlib`'s ISBN-10 check-digit for the
first nine digits — weights 10 down to 2, remainder mod 11, check digit
`0` when the remainder is `0` and `11 - r` otherwise (`10` rendered as
`X`).  Returns `none` when the input is not nine digits. -/
def check_digit10 (l : List Char) : Option Nat :=
  if l.length = 9 ∧ l.all isDigitChar = true then
    some (let v := weightedSum [10, 9, 8, 7, 6, 5, 4, 3, 2] (l.map digitVal)
          if v % 11 = 0 then 0 else 11 - v % 11)
  else none

/-- Modelled from the spec: `isbnlib`'s ISBN-13 check-digit for the
first twelve digits — alternating weights 1,3, remainder mod 10, check
digit `0` when the remainder is `0` and `10 - r` otherwise.  Returns
`none` when the input is not twelve digits. -/
def check_digit13 (l : List Char) : Option Nat :=
  if l.length = 12 ∧ l.all isDigitChar = true then
    some (let v := weightedSum [1, 3, 1, 3, 1, 3, 1, 3, 1, 3, 1, 3] (l.map digitVal)
          if v % 10 = 0 then 0 else 10 - v % 10)
  else none

/-- ISBN-10 test on an already-cleaned sequence: ten characters, the
first nine digits, and the last character carrying the check-digit value
computed from the first nine. -/
def isbn10Core (t : List Char) : Bool :=
  match check_digit10 (t.take 9), t.drop 9 with
  | some d, [c] => isIsbn10Char c && decide (isbn10CharVal c = d)
  | _, _ => false

/-- ISBN-13 test on an already-cleaned sequence: thirteen digits, the
last carrying the check-digit value computed from the first twelve. -/
def isbn13Core (t : List Char) : Bool :=
  match check_digit13 (t.take 12), t.drop 12 with
  | some d, [c] => isDigitChar c && decide (digitVal c = d)
  | _, _ => false

/-- Modelled from the spec: `isbnlib.is_isbn10` — validate the cleaned
sequence as an ISBN-10. -/
def is_isbn10 (s : List Char) : Bool := isbn10Core (clean s)

/-- Modelled from the spec: `isbnlib.is_isbn13` — validate the cleaned
sequence as an ISBN-13. -/
def is_isbn13 (s : List Char) : Bool := isbn13Core (clean s)

/-- `validate_isbn` from the notebook (cell 4):
`return True if is_isbn13(isbn) or is_isbn10(isbn) else False`. -/
def validate_isbn (s : List Char) : Bool :=
  if is_isbn13 s || is_isbn10 s then true else false

/-- `pad_isbn` from the notebook (cell 4): when the cleaned length is
below ten, prepend `'0' * (10 - len(isbn))` — note the count uses the
raw length, and Python's string repetition yields the empty string for a
non-positive count, matched here by truncated subtraction. -/
def pad_isbn (s : List Char) : List Char :=
  if (clean s).length < 10 then List.replicate (10 - s.length) '0' ++ s
  else s

/-- The normalisation performed by the batch loop (cell 8) on each
input: uppercase, then pad. -/
def normalize (s : List Char) : List Char := pad_isbn (s.map upperChar)

/-- The fixed catalog base URL (cell 2). -/
def base_url : List Char :=
  "http://bobcat.library.nyu.edu/primo-explore/search?search_scope=all&sortby=rank&vid=NYU&lang=en_US&query=isbn,exact,".toList

/-- The fixed marker scanned for in the rendered page text
(cell 6): `"No records found"`. -/
def noRecordsMarker : List Char := "No records found".toList

/-- The match evaluation at the end of `check_bobcat_isbn` (cell 6):
`alert = "No records found" in html.text; return False if alert else True`. -/
def is_found (pageText : List Char) : Bool :=
  if noRecordsMarker <:+: pageText then false else true

/-- `check_bobcat_isbn` from the notebook (cell 6).  The browser is
modelled by `fetch`, mapping a URL to the rendered page text; the second
component of the result records the URLs fetched, in order, so that the
number of external calls can be stated. -/
def check_bobcat_isbn (fetch : List Char → List Char)
    (isbn : List Char) : Bool × List (List Char) :=
  if validate_isbn isbn = true then
    let url := base_url ++ isbn
    let html := fetch url
    (is_found html, [url])
  else if validate_isbn (pad_isbn isbn) = true then
    let url := base_url ++ pad_isbn isbn
    let html := fetch url
    (is_found html, [url])
  else
    (false, [])

/-- One iteration of the batch loop (cell 8): normalise the input,
look it up, append the `(normalized isbn, found)` pair to the matches
and record the fetched URLs. -/
def batchStep (fetch : List Char → List Char)
    (acc : List (List Char × Bool) × List (List Char))
    (raw : List Char) : List (List Char × Bool) × List (List Char) :=
  let isbn := pad_isbn (raw.map upperChar)
  let r := check_bobcat_isbn fetch isbn
  (acc.1 ++ [(isbn, r.1)], acc.2 ++ r.2)

/-- The batch loop of cell 8 over a list of input ISBN strings,
returning the ordered `matches` list together with the ordered list of
all URLs fetched during the run. -/
def runBatch (fetch : List Char → List Char)
    (isbns : List (List Char)) : List (List Char × Bool) × List (List Char) :=
  isbns.foldl (batchStep fetch) ([], [])

/-- The spec's ISBN-10 checksum rule, stated as a single weighted sum:
ten characters, the first nine digits, the last a digit or `X`, and the
sum of the values weighted 10 down to 1 divisible by 11. -/
def isbn10Rule (t : List Char) : Prop :=
  t.length = 10 ∧ (t.take 9).all isDigitChar = true ∧
  isIsbn10Char (t.getLastD ' ') = true ∧
  weightedSum [10, 9, 8, 7, 6, 5, 4, 3, 2, 1] (t.map isbn10CharVal) % 11 = 0

/-- The spec's ISBN-13 checksum rule, stated as a single weighted sum:
thirteen digits whose alternating 1,3-weighted sum is divisible by 10. -/
def isbn13Rule (t : List Char) : Prop :=
  t.length = 13 ∧ t.all isDigitChar = true ∧
  weightedSum [1, 3, 1, 3, 1, 3, 1, 3, 1, 3, 1, 3, 1] (t.map digitVal) % 10 = 0

/-- The CSV quote character configured in cell 9: `quotechar = "'"`. -/
def quotechar : Char := Char.ofNat 39

/-- Python's rendering of a boolean written by `csv.writer`:
`str(True)`/`str(False)`. -/
def boolText (b : Bool) : List Char := if b then "True".toList else "False".toList

/-- Minimal quoting as performed by `csv.writer`: a field is quoted when
it contains the delimiter, the quote character, or a line-break. -/
def needsQuoting (f : List Char) : Bool :=
  f.any (fun c => c == ',' || c == quotechar || c == '\r' || c == '\n')

/-- Render one CSV field, quoting and doubling the quote character when
needed. -/
def renderField (f : List Char) : List Char :=
  if needsQuoting f then
    [quotechar] ++ f.flatMap (fun c => if c == quotechar then [quotechar, quotechar] else [c])
      ++ [quotechar]
  else f

/-- Render one CSV row with the default delimiter and terminator. -/
def renderRow (fs : List (List Char)) : List Char :=
  List.intercalate [','] (fs.map renderField) ++ "\r\n".toList

/-- The CSV export of cell 9: a header row `isbn,match` followed by one
row per result pair. -/
def writeCsv (rows : List (List Char × Bool)) : List Char :=
  renderRow ["isbn".toList, "match".toList] ++
    (rows.map (fun r => renderRow [r.1, boolText r.2])).flatten

/-- Drop the carriage return left at the end of a line split on the
line-feed character. -/
def stripCR (l : List Char) : List Char :=
  if l.getLast? = some '\r' then l.dropLast else l

/-- Split CSV text into lines, dropping the empty segment produced by
the terminator of the last row. -/
def csvLines (s : List Char) : List (List Char) :=
  let segs := s.splitOn '\n'
  let segs2 := if segs.getLast? = some [] then segs.dropLast else segs
  segs2.map stripCR

/-- Modelled from the spec: re-reading interprets the engine's standard
boolean text. -/
def parseBool (f : List Char) : Option Bool :=
  if f = "True".toList then some true
  else if f = "False".toList then some false
  else none

/-- Strip the configured quote character from a quoted field. -/
def unquoteField (f : List Char) : List Char :=
  if 2 ≤ f.length ∧ f.head? = some quotechar ∧ f.getLast? = some quotechar then
    (f.drop 1).dropLast
  else f

/-- Parse one data row back into an (isbn, boolean) pair. -/
def parseRow (l : List Char) : Option (List Char × Bool) :=
  match (l.splitOn ',').map unquoteField with
  | [i, m] =>
    match parseBool m with
    | some b => some (i, b)
    | none => none
  | _ => none

/-- Modelled from the spec: the repository writes `matches.csv` but
contains no code reading it back; the round-trip reader checks the
`isbn,match` header and parses each row into an (isbn string, boolean)
pair. -/
def readCsv (s : List Char) : Option (List (List Char × Bool)) :=
  match csvLines s with
  | header :: rows =>
    if header.splitOn ',' = ["isbn".toList, "match".toList] then
      rows.mapM parseRow
    else none
  | [] => none

theorem char_eq_iff (a b : Char) : a = b ↔ a.toNat = b.toNat :=
  ⟨fun h => congrArg Char.toNat h, fun h => Char.ext (UInt32.ext h)⟩

theorem char_ofNat_toNat (n : Nat) (h : n < 55296) : (Char.ofNat n).toNat = n := by
  have hv : n.isValidChar := Or.inl h
  simp [Char.ofNat, hv, Char.ofNatAux, Char.toNat, UInt32.toNat, BitVec.toNat_ofNatLt]

theorem upperChar_toNat (c : Char) : (upperChar c).toNat =
    if 97 ≤ c.toNat ∧ c.toNat ≤ 122 then c.toNat - 32 else c.toNat := by
  unfold upperChar
  split
  · rename_i h
    exact char_ofNat_toNat (c.toNat - 32) (by omega)
  · rfl

theorem beq_eq_decide (a b : Char) : (a == b) = decide (a.toNat = b.toNat) := by
  by_cases h : a = b
  · subst h
    simp
  · have h2 : ¬ a.toNat = b.toNat := fun hn => h ((char_eq_iff a b).mpr hn)
    simp [h, h2]

theorem bool_eq_of_iff {a b : Bool} (h : a = true ↔ b = true) : a = b := by
  cases a <;> cases b <;> simp_all

theorem upperChar_beq_dash (c : Char) : (upperChar c == '-') = (c == '-') := by
  rw [beq_eq_decide, beq_eq_decide]
  have h := upperChar_toNat c
  apply bool_eq_of_iff
  simp only [decide_eq_true_eq]
  have h45 : ('-').toNat = 45 := rfl
  rw [h45, h]
  split <;> rename_i hc <;> constructor <;> intro <;> omega

theorem upperChar_beq_space (c : Char) : (upperChar c == ' ') = (c == ' ') := by
  rw [beq_eq_decide, beq_eq_decide]
  have h := upperChar_toNat c
  apply bool_eq_of_iff
  simp only [decide_eq_true_eq]
  have h32 : (' ').toNat = 32 := rfl
  rw [h32, h]
  split <;> rename_i hc <;> constructor <;> intro <;> omega

theorem upperChar_beq_X (c : Char) :
    (upperChar c == 'X' || upperChar c == 'x') = (c == 'X' || c == 'x') := by
  rw [beq_eq_decide, beq_eq_decide, beq_eq_decide, beq_eq_decide]
  have h := upperChar_toNat c
  apply bool_eq_of_iff
  simp only [Bool.or_eq_true, decide_eq_true_eq]
  have h88 : ('X').toNat = 88 := rfl
  have h120 : ('x').toNat = 120 := rfl
  rw [h88, h120, h]
  split <;> rename_i hc <;> constructor <;> intro hx <;> omega

theorem isDigitChar_upperChar (c : Char) : isDigitChar (upperChar c) = isDigitChar c := by
  unfold isDigitChar
  apply bool_eq_of_iff
  simp only [decide_eq_true_eq]
  rw [upperChar_toNat]
  split <;> rename_i hc <;> constructor <;> intro <;> omega

theorem upperChar_eq_self_of_digit (c : Char) (h : isDigitChar c = true) :
    upperChar c = c := by
  have h2 : 48 ≤ c.toNat ∧ c.toNat ≤ 57 := of_decide_eq_true h
  unfold upperChar
  rw [if_neg (by omega)]

theorem isIsbn10Char_upperChar (c : Char) :
    isIsbn10Char (upperChar c) = isIsbn10Char c := by
  unfold isIsbn10Char
  rw [Bool.or_assoc, Bool.or_assoc, isDigitChar_upperChar, upperChar_beq_X c]

theorem isbn10CharVal_upperChar (c : Char) (h : isIsbn10Char c = true) :
    isbn10CharVal (upperChar c) = isbn10CharVal c := by
  by_cases hx : (c == 'X' || c == 'x') = true
  · have hx2 : c = 'X' ∨ c = 'x' := by
      simpa [Bool.or_eq_true, beq_iff_eq] using hx
    rcases hx2 with h1 | h1 <;> subst h1 <;> decide
  · unfold isIsbn10Char at h
    rw [Bool.or_assoc, Bool.or_eq_true] at h
    rcases h with h1 | h1
    · rw [upperChar_eq_self_of_digit c h1]
    · exact absurd h1 hx

theorem clean_map_upperChar (l : List Char) :
    clean (l.map upperChar) = (clean l).map upperChar := by
  induction l with
  | nil => rfl
  | cons c t ih =>
    unfold clean at *
    simp only [List.map_cons, List.filter_cons]
    rw [upperChar_beq_dash, upperChar_beq_space]
    cases hb : (!(c == '-') && !(c == ' ')) <;> simp [hb, ih]

theorem map_upperChar_of_digits (l : List Char) (h : l.all isDigitChar = true) :
    l.map upperChar = l := by
  induction l with
  | nil => rfl
  | cons c t ih =>
    simp only [List.all_cons, Bool.and_eq_true] at h
    simp [upperChar_eq_self_of_digit c h.1, ih h.2]

theorem all_digits_map_upperChar (l : List Char) :
    (l.map upperChar).all isDigitChar = l.all isDigitChar := by
  rw [List.all_map]
  exact congrArg _ (funext isDigitChar_upperChar)

theorem check_digit10_map_upperChar (l : List Char) :
    check_digit10 (l.map upperChar) = check_digit10 l := by
  by_cases h : l.all isDigitChar = true
  · rw [map_upperChar_of_digits l h]
  · unfold check_digit10
    rw [if_neg, if_neg]
    · exact fun hc => h hc.2
    · intro hc
      rw [all_digits_map_upperChar] at hc
      exact h hc.2

theorem check_digit13_map_upperChar (l : List Char) :
    check_digit13 (l.map upperChar) = check_digit13 l := by
  by_cases h : l.all isDigitChar = true
  · rw [map_upperChar_of_digits l h]
  · unfold check_digit13
    rw [if_neg, if_neg]
    · exact fun hc => h hc.2
    · intro hc
      rw [all_digits_map_upperChar] at hc
      exact h hc.2

theorem isbn10Core_map_upperChar (t : List Char) :
    isbn10Core (t.map upperChar) = isbn10Core t := by
  unfold isbn10Core
  rw [← List.map_take, ← List.map_drop, check_digit10_map_upperChar]
  cases hd : check_digit10 (t.take 9) with
  | none =>
    cases t.drop 9 with
    | nil => rfl
    | cons c r => cases r <;> rfl
  | some d =>
    cases hl : t.drop 9 with
    | nil => rfl
    | cons c r =>
      cases r with
      | cons c2 r2 => rfl
      | nil =>
        show (isIsbn10Char (upperChar c) && _) = (isIsbn10Char c && _)
        rw [isIsbn10Char_upperChar]
        by_cases h10 : isIsbn10Char c = true
        · rw [isbn10CharVal_upperChar c h10]
        · have hf : isIsbn10Char c = false := by simp_all
          rw [hf]
          simp

theorem isbn13Core_map_upperChar (t : List Char) :
    isbn13Core (t.map upperChar) = isbn13Core t := by
  unfold isbn13Core
  rw [← List.map_take, ← List.map_drop, check_digit13_map_upperChar]
  cases hd : check_digit13 (t.take 12) with
  | none =>
    cases t.drop 12 with
    | nil => rfl
    | cons c r => cases r <;> rfl
  | some d =>
    cases hl : t.drop 12 with
    | nil => rfl
    | cons c r =>
      cases r with
      | cons c2 r2 => rfl
      | nil =>
        show (isDigitChar (upperChar c) && _) = (isDigitChar c && _)
        rw [isDigitChar_upperChar]
        by_cases h10 : isDigitChar c = true
        · rw [upperChar_eq_self_of_digit c h10]
        · have hf : isDigitChar c = false := by simp_all
          rw [hf]
          simp

theorem validate_isbn_map_upperChar (s : List Char) :
    validate_isbn (s.map upperChar) = validate_isbn s := by
  unfold validate_isbn is_isbn13 is_isbn10
  rw [clean_map_upperChar, isbn13Core_map_upperChar, isbn10Core_map_upperChar]

theorem isbn10CharVal_eq_digitVal (c : Char) (h : isDigitChar c = true) :
    isbn10CharVal c = digitVal c := by
  have h2 : 48 ≤ c.toNat ∧ c.toNat ≤ 57 := of_decide_eq_true h
  unfold isbn10CharVal
  rw [if_neg]
  intro hx
  rw [beq_eq_decide, beq_eq_decide, Bool.or_eq_true] at hx
  have h88 : ('X').toNat = 88 := rfl
  have h120 : ('x').toNat = 120 := rfl
  rcases hx with h1 | h1 <;> have h3 := of_decide_eq_true h1 <;> omega

theorem map_isbn10CharVal_of_digits (l : List Char) (h : l.all isDigitChar = true) :
    l.map isbn10CharVal = l.map digitVal := by
  induction l with
  | nil => rfl
  | cons c t ih =>
    simp only [List.all_cons, Bool.and_eq_true] at h
    simp [isbn10CharVal_eq_digitVal c h.1, ih h.2]

theorem length_take_drop (n : Nat) (t : List Char) :
    t.length = (t.take n).length + (t.drop n).length := by
  rw [← List.length_append, List.take_append_drop]

theorem isbn10CharVal_le (c : Char) (h : isIsbn10Char c = true) :
    isbn10CharVal c ≤ 10 := by
  unfold isbn10CharVal
  by_cases hx : (c == 'X' || c == 'x') = true
  · rw [if_pos hx]
  · rw [if_neg hx]
    unfold isIsbn10Char at h
    rw [Bool.or_assoc, Bool.or_eq_true] at h
    rcases h with h1 | h1
    · have h2 := of_decide_eq_true h1
      unfold digitVal
      omega
    · exact absurd h1 hx

theorem isbn10Core_iff (t : List Char) : isbn10Core t = true ↔ isbn10Rule t := by
  unfold isbn10Core isbn10Rule
  cases hd : check_digit10 (t.take 9) with
  | none =>
    have hnone : ¬ ((t.take 9).length = 9 ∧ (t.take 9).all isDigitChar = true) := by
      intro hc
      unfold check_digit10 at hd
      rw [if_pos hc] at hd
      exact Option.noConfusion hd
    constructor
    · intro h
      exfalso
      cases t.drop 9 with
      | nil => simp at h
      | cons c r => cases r <;> simp at h
    · rintro ⟨hlen, hnine, _, _⟩
      refine absurd ⟨?_, hnine⟩ hnone
      rw [List.length_take]
      omega
  | some d =>
    have hinv : (t.take 9).length = 9 ∧ (t.take 9).all isDigitChar = true ∧
        d = (if weightedSum [10, 9, 8, 7, 6, 5, 4, 3, 2] ((t.take 9).map digitVal) % 11 = 0
             then 0
             else 11 - weightedSum [10, 9, 8, 7, 6, 5, 4, 3, 2] ((t.take 9).map digitVal) % 11) := by
      unfold check_digit10 at hd
      by_cases hc : (t.take 9).length = 9 ∧ (t.take 9).all isDigitChar = true
      · rw [if_pos hc] at hd
        exact ⟨hc.1, hc.2, (Option.some.inj hd).symm⟩
      · rw [if_neg hc] at hd
        exact Option.noConfusion hd
    obtain ⟨hlen9, hdig9, hdval⟩ := hinv
    have hlt := length_take_drop 9 t
    cases hl : t.drop 9 with
    | nil =>
      constructor
      · intro h
        simp at h
      · rintro ⟨hlen, _, _, _⟩
        rw [hl] at hlt
        simp at hlt
        omega
    | cons c r =>
      cases r with
      | cons c2 r2 =>
        constructor
        · intro h
          simp at h
        · rintro ⟨hlen, _, _, _⟩
          rw [hl] at hlt
          simp at hlt
          omega
      | nil =>
        have ht : t = t.take 9 ++ [c] := by
          conv_lhs => rw [← List.take_append_drop 9 t, hl]
        have hlen10 : t.length = 10 := by
          rw [hl] at hlt
          simp at hlt
          omega
        have hlast : t.getLastD ' ' = c := by
          conv_lhs => rw [ht]
          exact List.getLastD_concat _ _ _
        have hsum : weightedSum [10, 9, 8, 7, 6, 5, 4, 3, 2, 1] (t.map isbn10CharVal) =
            weightedSum [10, 9, 8, 7, 6, 5, 4, 3, 2] ((t.take 9).map digitVal)
              + isbn10CharVal c := by
          conv_lhs => rw [ht]
          rw [List.map_append]
          show weightedSum ([10, 9, 8, 7, 6, 5, 4, 3, 2] ++ [1]) _ = _
          unfold weightedSum
          rw [List.zipWith_append _ _ _ _ _ (by simp [hlen9]; omega),
            List.sum_append, map_isbn10CharVal_of_digits _ hdig9]
          simp
        constructor
        · intro h
          rw [Bool.and_eq_true, decide_eq_true_eq] at h
          obtain ⟨h10, hval⟩ := h
          refine ⟨hlen10, hdig9, by rw [hlast]; exact h10, ?_⟩
          rw [hsum, hval, hdval]
          split <;> omega
        · rintro ⟨_, _, hlast10, hmod⟩
          rw [hlast] at hlast10
          rw [Bool.and_eq_true, decide_eq_true_eq]
          refine ⟨hlast10, ?_⟩
          have hle := isbn10CharVal_le c hlast10
          rw [hsum] at hmod
          rw [hdval]
          split <;> rename_i hv <;> omega

theorem isbn13Core_iff (t : List Char) : isbn13Core t = true ↔ isbn13Rule t := by
  unfold isbn13Core isbn13Rule
  cases hd : check_digit13 (t.take 12) with
  | none =>
    have hnone : ¬ ((t.take 12).length = 12 ∧ (t.take 12).all isDigitChar = true) := by
      intro hc
      unfold check_digit13 at hd
      rw [if_pos hc] at hd
      exact Option.noConfusion hd
    constructor
    · intro h
      exfalso
      cases t.drop 12 with
      | nil => simp at h
      | cons c r => cases r <;> simp at h
    · rintro ⟨hlen, hall, _⟩
      refine absurd ⟨?_, ?_⟩ hnone
      · rw [List.length_take]
        omega
      · exact List.all_eq_true.mpr fun c hc =>
          List.all_eq_true.mp hall c (List.take_subset _ _ hc)
  | some d =>
    have hinv : (t.take 12).length = 12 ∧ (t.take 12).all isDigitChar = true ∧
        d = (if weightedSum [1, 3, 1, 3, 1, 3, 1, 3, 1, 3, 1, 3] ((t.take 12).map digitVal) % 10 = 0
             then 0
             else 10 - weightedSum [1, 3, 1, 3, 1, 3, 1, 3, 1, 3, 1, 3] ((t.take 12).map digitVal) % 10) := by
      unfold check_digit13 at hd
      by_cases hc : (t.take 12).length = 12 ∧ (t.take 12).all isDigitChar = true
      · rw [if_pos hc] at hd
        exact ⟨hc.1, hc.2, (Option.some.inj hd).symm⟩
      · rw [if_neg hc] at hd
        exact Option.noConfusion hd
    obtain ⟨hlen12, hdig12, hdval⟩ := hinv
    have hlt := length_take_drop 12 t
    cases hl : t.drop 12 with
    | nil =>
      constructor
      · intro h
        simp at h
      · rintro ⟨hlen, _, _⟩
        rw [hl] at hlt
        simp at hlt
        omega
    | cons c r =>
      cases r with
      | cons c2 r2 =>
        constructor
        · intro h
          simp at h
        · rintro ⟨hlen, _, _⟩
          rw [hl] at hlt
          simp at hlt
          omega
      | nil =>
        have ht : t = t.take 12 ++ [c] := by
          conv_lhs => rw [← List.take_append_drop 12 t, hl]
        have hlen13 : t.length = 13 := by
          rw [hl] at hlt
          simp at hlt
          omega
        have hall : t.all isDigitChar = ((t.take 12).all isDigitChar && isDigitChar c) := by
          conv_lhs => rw [ht]
          rw [List.all_append]
          simp
        have hsum : weightedSum [1, 3, 1, 3, 1, 3, 1, 3, 1, 3, 1, 3, 1] (t.map digitVal) =
            weightedSum [1, 3, 1, 3, 1, 3, 1, 3, 1, 3, 1, 3] ((t.take 12).map digitVal)
              + digitVal c := by
          conv_lhs => rw [ht]
          rw [List.map_append]
          show weightedSum ([1, 3, 1, 3, 1, 3, 1, 3, 1, 3, 1, 3] ++ [1]) _ = _
          unfold weightedSum
          rw [List.zipWith_append _ _ _ _ _ (by simp [hlen12]; omega), List.sum_append]
          simp
        constructor
        · intro h
          rw [Bool.and_eq_true, decide_eq_true_eq] at h
          obtain ⟨hdc, hval⟩ := h
          refine ⟨hlen13, ?_, ?_⟩
          · rw [hall, Bool.and_eq_true]
            exact ⟨hdig12, hdc⟩
          · rw [hsum, hval, hdval]
            split <;> omega
        · rintro ⟨_, halld, hmod⟩
          rw [hall, Bool.and_eq_true] at halld
          rw [Bool.and_eq_true, decide_eq_true_eq]
          refine ⟨halld.2, ?_⟩
          have h2 : 48 ≤ c.toNat ∧ c.toNat ≤ 57 := of_decide_eq_true halld.2
          have hle : digitVal c ≤ 9 := by
            unfold digitVal
            omega
          rw [hsum] at hmod
          rw [hdval]
          split <;> rename_i hv <;> omega

theorem validate_isbn_eq_or (s : List Char) :
    validate_isbn s = (is_isbn13 s || is_isbn10 s) := by
  unfold validate_isbn
  split <;> simp_all

theorem validate_rules (s : List Char) :
    validate_isbn s = true ↔ isbn13Rule (clean s) ∨ isbn10Rule (clean s) := by
  rw [validate_isbn_eq_or, Bool.or_eq_true, is_isbn13, is_isbn10,
    isbn13Core_iff, isbn10Core_iff]

theorem clean_clean (s : List Char) : clean (clean s) = clean s := by
  unfold clean
  rw [List.filter_filter]
  have hf : (fun a => ((!(a == '-') && !(a == ' ')) && (!(a == '-') && !(a == ' ')))) =
      (fun c => !(c == '-') && !(c == ' ')) := by
    funext c
    cases h : (!(c == '-') && !(c == ' ')) <;> simp [h]
  rw [hf]

theorem validate_isbn_clean (s : List Char) :
    validate_isbn (clean s) = validate_isbn s := by
  rw [validate_isbn_eq_or, validate_isbn_eq_or, is_isbn13, is_isbn13,
    is_isbn10, is_isbn10, clean_clean]

theorem validate_clean_length (s : List Char) (h : validate_isbn s = true) :
    10 ≤ (clean s).length := by
  rw [validate_rules] at h
  rcases h with h | h
  · rw [h.1]
    omega
  · rw [h.1]

theorem normalize_of_valid (s : List Char) (h : validate_isbn s = true) :
    normalize s = s.map upperChar := by
  unfold normalize pad_isbn
  rw [if_neg]
  rw [clean_map_upperChar, List.length_map]
  have := validate_clean_length s h
  omega

theorem count_map_upperChar (l : List Char) (m : Char)
    (hbeq : ∀ c, (upperChar c == m) = (c == m)) :
    (l.map upperChar).count m = l.count m := by
  induction l with
  | nil => rfl
  | cons c t ih =>
    simp only [List.map_cons, List.count_cons, ih, hbeq c]

theorem check_bobcat_isbn_of_valid (fetch : List Char → List Char) (isbn : List Char)
    (h : validate_isbn isbn = true) :
    check_bobcat_isbn fetch isbn =
      (is_found (fetch (base_url ++ isbn)), [base_url ++ isbn]) := by
  unfold check_bobcat_isbn
  rw [if_pos h]

theorem runBatch_foldl_acc (fetch : List Char → List Char) (l : List (List Char)) :
    ∀ a, List.foldl (batchStep fetch) a l =
      (a.1 ++ (runBatch fetch l).1, a.2 ++ (runBatch fetch l).2) := by
  induction l with
  | nil =>
    intro a
    simp [runBatch]
  | cons x t ih =>
    intro a
    show List.foldl (batchStep fetch) (batchStep fetch a x) t = _
    rw [ih]
    have h2 : runBatch fetch (x :: t) =
        ((batchStep fetch ([], []) x).1 ++ (runBatch fetch t).1,
          (batchStep fetch ([], []) x).2 ++ (runBatch fetch t).2) := by
      show List.foldl (batchStep fetch) (batchStep fetch ([], []) x) t = _
      rw [ih]
    rw [h2]
    simp [batchStep, List.append_assoc]

theorem runBatch_cons (fetch : List Char → List Char) (x : List Char)
    (t : List (List Char)) :
    runBatch fetch (x :: t) =
      ((pad_isbn (x.map upperChar),
          (check_bobcat_isbn fetch (pad_isbn (x.map upperChar))).1) :: (runBatch fetch t).1,
        (check_bobcat_isbn fetch (pad_isbn (x.map upperChar))).2 ++ (runBatch fetch t).2) := by
  show List.foldl (batchStep fetch) (batchStep fetch ([], []) x) t = _
  rw [runBatch_foldl_acc]
  simp [batchStep]

/-- C9: for every input string whose raw length is at least ten,
`pad_isbn` returns the input unchanged (the pad count `10 - len` is zero
or negative), even when the cleaned length is below ten; the embedding
is a total function, so no input raises. -/
theorem pad_isbn_raw_length (s : List Char) (h : 10 ≤ s.length) : pad_isbn s = s := by
  unfold pad_isbn
  split
  · have h0 : 10 - s.length = 0 := by omega
    rw [h0]
    simp
  · rfl

theorem pad_isbn_raw_length_w :
    pad_isbn "1-2-3-4-5-6".toList = "1-2-3-4-5-6".toList :=
  pad_isbn_raw_length _ (by decide)

/-- C2 counterexample: the string `"1-23456789"` has cleaned length 9,
yet `pad_isbn` does not prepend a `'0'` — the pad count is measured
against the raw length 10. -/
theorem pad_isbn_cleaned_nine_cex :
    (clean "1-23456789".toList).length = 9 ∧
    pad_isbn "1-23456789".toList ≠ '0' :: "1-23456789".toList := by
  exact ⟨by decide, by decide⟩

/-- C2 (amended): `pad_isbn` returns the input unchanged when the
cleaned length is at least ten; otherwise it prepends `10 - raw length`
zeros (none when the raw length is already at least ten); a string whose
cleaned and raw lengths are both 9 gets exactly one `'0'`. -/
theorem pad_isbn_amended (s : List Char) :
    (10 ≤ (clean s).length → pad_isbn s = s) ∧
    ((clean s).length < 10 → pad_isbn s = List.replicate (10 - s.length) '0' ++ s) ∧
    ((clean s).length = 9 → s.length = 9 → pad_isbn s = '0' :: s) := by
  refine ⟨fun h => ?_, fun h => ?_, fun h9 hr9 => ?_⟩
  · unfold pad_isbn
    rw [if_neg (by omega)]
  · unfold pad_isbn
    rw [if_pos h]
  · unfold pad_isbn
    rw [if_pos (by omega), hr9]
    rfl

theorem pad_isbn_amended_w :
    pad_isbn "9781781792834".toList = "9781781792834".toList ∧
    pad_isbn "1 2 3 4 5 6".toList = "1 2 3 4 5 6".toList ∧
    pad_isbn "123456789".toList = '0' :: "123456789".toList := by
  refine ⟨(pad_isbn_amended _).1 (by decide), ?_,
    (pad_isbn_amended _).2.2 (by decide) (by decide)⟩
  have h := (pad_isbn_amended ("1 2 3 4 5 6".toList)).2.1 (by decide)
  rw [h]
  decide

/-- C3: `validate_isbn` returns true exactly when the cleaned sequence
satisfies the ISBN-13 weighted-sum checksum rule or the ISBN-10
weighted-sum checksum rule; in particular it is true on every valid
ISBN-13 string. -/
theorem validate_isbn_iff (s : List Char) :
    validate_isbn s = true ↔ isbn13Rule (clean s) ∨ isbn10Rule (clean s) :=
  validate_rules s

/-- C5: the match evaluator returns false exactly when the page text
contains the fixed `"No records found"` marker (in particular on the
marker itself), and true on every text not containing it. -/
theorem is_found_iff (t : List Char) :
    is_found t = false ↔ noRecordsMarker <:+: t := by
  unfold is_found
  split <;> simp_all

/-- C6: on an already-canonical input — uppercase, fixed by `pad_isbn`,
and a valid ISBN — normalisation is idempotent. -/
theorem normalize_idempotent (x : List Char)
    (hup : x.map upperChar = x) (hpad : pad_isbn x = x)
    (_hvalid : validate_isbn x = true) :
    normalize (normalize x) = normalize x := by
  have hx : normalize x = x := by
    unfold normalize
    rw [hup, hpad]
  rw [hx]
  exact hx

theorem normalize_idempotent_w :
    normalize (normalize "9781781792834".toList) = normalize "9781781792834".toList :=
  normalize_idempotent _ (by decide) (by decide) (by decide)

/-- C4: an ISBN failing validation in both raw and padded form yields
`(false, no fetch)` with no error surfaced; an ISBN passing in either
form triggers exactly one external fetch. -/
theorem check_bobcat_fetch_policy (fetch : List Char → List Char) (isbn : List Char) :
    (validate_isbn isbn = false → validate_isbn (pad_isbn isbn) = false →
      check_bobcat_isbn fetch isbn = (false, [])) ∧
    ((validate_isbn isbn = true ∨ validate_isbn (pad_isbn isbn) = true) →
      (check_bobcat_isbn fetch isbn).2.length = 1) := by
  constructor
  · intro h1 h2
    simp [check_bobcat_isbn, h1, h2]
  · intro h
    by_cases h0 : validate_isbn isbn = true
    · simp [check_bobcat_isbn, h0]
    · rcases h with h | h
      · exact absurd h h0
      · simp [check_bobcat_isbn, h0, h]

theorem check_bobcat_fetch_policy_w :
    check_bobcat_isbn (fun _ => []) "abc".toList = (false, []) ∧
    (check_bobcat_isbn (fun _ => []) "9781781792834".toList).2.length = 1 :=
  ⟨(check_bobcat_fetch_policy (fun _ => []) "abc".toList).1 (by decide) (by decide),
    (check_bobcat_fetch_policy (fun _ => []) "9781781792834".toList).2 (Or.inl (by decide))⟩

/-- C1 counterexample: running the batch on `'123456789'` with a fetch
returning an empty page records `('0123456789', true)` and performs one
fetch — the padded form passes the ISBN-10 checksum, so the claimed
`('0123456789', false)` with zero fetches is false. -/
theorem runBatch_unpadded_cex :
    (runBatch (fun _ => []) ["123456789".toList]).1 = [("0123456789".toList, true)] ∧
    (runBatch (fun _ => []) ["123456789".toList]).2.length = 1 ∧
    ¬ ((runBatch (fun _ => []) ["123456789".toList]).1 = [("0123456789".toList, false)] ∧
        (runBatch (fun _ => []) ["123456789".toList]).2 = []) := by
  refine ⟨by decide, by decide, ?_⟩
  intro h
  exact (by decide : ¬ ((runBatch (fun _ => []) ["123456789".toList]).2 = [])) h.2

/-- C1 (amended): for the input `'123456789'`, the padded form
`'0123456789'` passes the ISBN-10 checksum, so the batch runner issues
exactly one external fetch and records `('0123456789', found)` where
`found` is the match-evaluator result on the fetched page. -/
theorem runBatch_unpadded_amended (fetch : List Char → List Char) :
    runBatch fetch ["123456789".toList] =
      ([("0123456789".toList, is_found (fetch (base_url ++ "0123456789".toList)))],
        [base_url ++ "0123456789".toList]) := rfl

/-- C7: the batch runner emits exactly one `(normalized isbn, found)`
pair per input, in input order (the result list is the map of the
per-item step over the inputs), and results already appended are never
modified by later iterations (the result list for a prefix of the
inputs is a prefix of the result list for the whole input). -/
theorem runBatch_shape (fetch : List Char → List Char)
    (isbns more : List (List Char)) :
    (runBatch fetch isbns).1 =
      isbns.map (fun raw =>
        (pad_isbn (raw.map upperChar),
          (check_bobcat_isbn fetch (pad_isbn (raw.map upperChar))).1)) ∧
    (runBatch fetch isbns).1 <+: (runBatch fetch (isbns ++ more)).1 := by
  constructor
  · induction isbns with
    | nil => rfl
    | cons x t ih =>
      rw [runBatch_cons, List.map_cons, ← ih]
  · have h : (runBatch fetch (isbns ++ more)).1 =
        (runBatch fetch isbns).1 ++ (runBatch fetch more).1 := by
      show (List.foldl (batchStep fetch) ([], []) (isbns ++ more)).1 = _
      rw [List.foldl_append, runBatch_foldl_acc]
      rfl
    rw [h]
    exact List.prefix_append _ _

/-- C10: for any input that validates, normalisation only uppercases —
it removes no hyphen or space — the cleaned form still validates (the
checksum is computed on the cleaned sequence), and the catalog URL is
the base URL concatenated with the normalised string verbatim. -/
theorem normalize_keeps_separators (fetch : List Char → List Char) (s : List Char)
    (h : validate_isbn s = true) :
    validate_isbn (clean s) = true ∧
    normalize s = s.map upperChar ∧
    (normalize s).count '-' = s.count '-' ∧
    (normalize s).count ' ' = s.count ' ' ∧
    validate_isbn (normalize s) = true ∧
    check_bobcat_isbn fetch (normalize s) =
      (is_found (fetch (base_url ++ normalize s)), [base_url ++ normalize s]) := by
  have hn := normalize_of_valid s h
  have hv : validate_isbn (normalize s) = true := by
    rw [hn, validate_isbn_map_upperChar]
    exact h
  refine ⟨by rw [validate_isbn_clean]; exact h, hn, ?_, ?_, hv, ?_⟩
  · rw [hn]
    exact count_map_upperChar s '-' upperChar_beq_dash
  · rw [hn]
    exact count_map_upperChar s ' ' upperChar_beq_space
  · exact check_bobcat_isbn_of_valid fetch (normalize s) hv

theorem normalize_keeps_separators_w :
    validate_isbn (clean "0-123-45678-9".toList) = true ∧
    normalize "0-123-45678-9".toList = ("0-123-45678-9".toList).map upperChar ∧
    (normalize "0-123-45678-9".toList).count '-' = ("0-123-45678-9".toList).count '-' ∧
    (normalize "0-123-45678-9".toList).count ' ' = ("0-123-45678-9".toList).count ' ' ∧
    validate_isbn (normalize "0-123-45678-9".toList) = true ∧
    check_bobcat_isbn (fun _ => []) (normalize "0-123-45678-9".toList) =
      (is_found ((fun _ : List Char => ([] : List Char)) (base_url ++ normalize "0-123-45678-9".toList)),
        [base_url ++ normalize "0-123-45678-9".toList]) :=
  normalize_keeps_separators (fun _ => []) ("0-123-45678-9".toList) (by decide)

/-- C8: writing the single result `('9781781792834', true)` through the
CSV export (header `isbn,match`, quote character `'`) and re-reading the
text reproduces the same (isbn string, boolean) pair. -/
theorem csv_roundtrip :
    readCsv (writeCsv [("9781781792834".toList, true)]) =
      some [("9781781792834".toList, true)] := by
  decide

end Bobcat
